import Mathlib

/-!
Verification of the anon-chat relay against its specification.

Shallow embedding of the relevant repository code:
* `src/backend/lib/rateLimit.js` — the `RateLimit` class (sliding-window
  limiter with a Redis backend and an in-process fallback backend).
* `src/backend/lib/redis.js` — `RedisManager` message-store operations and
  the `ServerEncryption` validator/sanitizer.
* `src/unnamed/part_002` — the WebSocket `ChatServer` (connection registry,
  message handling, broadcast fan-out, in-process message store).

JavaScript numbers standing for `Date.now()` timestamps are modelled as `Int`
(all relevant values are exact integers well below 2^53).  JavaScript strings
are modelled as Lean `String`/`List Char`; all concrete inputs used in the
development are ASCII, where JS UTF-16 code-unit length coincides with
codepoint length.
-/

namespace AnonChat

/-! ## Rate limiter (`src/backend/lib/rateLimit.js`)

The in-memory store `this.inMemoryStore : Map<string, number[]>` is modelled
as a total function from identifiers to timestamp lists (a missing key is the
empty list, matching the `if (!has) set(id, [])` initialisation in
`checkMemoryLimit`). -/

/-- The result object returned by every rate-limit check:
`{allowed, remaining, resetTime, totalHits}`.  `resetTime` is the numeric
timestamp wrapped in `new Date(...)` by the source. -/
structure RateLimitResult where
  allowed : Bool
  remaining : Nat
  resetTime : Int
  totalHits : Nat
  deriving Repr, DecidableEq

/-- The in-memory rate limit table (`this.inMemoryStore`). -/
def RLStore := String → List Int

/-- `RateLimit.checkMemoryLimit(identifier, maxRequests, windowMs)` at clock
value `now` (`Date.now()`).  Filters out timestamps `≤ now - windowMs`,
rejects with `remaining = 0` when the surviving count reaches `maxRequests`,
otherwise pushes `now` and accepts.  In the reject branch the source computes
`new Date(validRequests[0] + windowMs)`; `validRequests` is then non-empty
whenever `maxRequests > 0`, and we read its head with default `0` (for
`maxRequests = 0` the source would produce an invalid date; no claim touches
that corner). -/
def checkMemoryLimit (store : RLStore) (identifier : String) (maxRequests : Nat)
    (windowMs : Int) (now : Int) : RateLimitResult × RLStore :=
  let windowStart := now - windowMs
  let requests := store identifier
  let validRequests := requests.filter (fun t => windowStart < t)
  if maxRequests ≤ validRequests.length then
    ({ allowed := false, remaining := 0,
       resetTime := validRequests.headD 0 + windowMs,
       totalHits := validRequests.length },
     fun id => if id = identifier then validRequests else store id)
  else
    let validRequests' := validRequests ++ [now]
    ({ allowed := true, remaining := maxRequests - validRequests'.length,
       resetTime := now + windowMs,
       totalHits := validRequests'.length },
     fun id => if id = identifier then validRequests' else store id)

/-- A sequence of `checkMemoryLimit` calls for one identifier at the given
clock values, threading the store and collecting the results in order. -/
def runChecks (store : RLStore) (identifier : String) (maxRequests : Nat)
    (windowMs : Int) : List Int → RLStore × List RateLimitResult
  | [] => (store, [])
  | t :: ts =>
    let step := checkMemoryLimit store identifier maxRequests windowMs t
    let rest := runChecks step.2 identifier maxRequests windowMs ts
    (rest.1, step.1 :: rest.2)

/-- The periodic cleanup sweep (`startCleanupTimer`): drop every timestamp
older than five minutes from each record.  (Our functional store identifies
a deleted key with an empty record.) -/
def cleanupSweep (store : RLStore) (now : Int) : RLStore :=
  fun id => (store id).filter (fun t => now - 5 * 60 * 1000 < t)

/-- Behaviour of the Redis backend during one `checkRedisLimit` call:
the client may be `null`, one of the awaited operations may throw, or the
calls succeed, in which case `count` is the `zCard` value observed after the
`zRemRangeByScore` prune and `ttl` is the key's remaining TTL in seconds. -/
inductive RedisBehavior where
  | nullClient
  | throws
  | ok (count : Nat) (ttl : Int)
  deriving Repr, DecidableEq

/-- Availability of the shared store when `checkLimit` runs:
`redisManager.isReady()` is false (`down`), or true with the given
per-call behaviour. -/
inductive RedisAvail where
  | down
  | up (b : RedisBehavior)
  deriving Repr, DecidableEq

/-- `RateLimit.checkRedisLimit(identifier, maxRequests, windowSeconds)`.
A `null` client and a thrown Redis error both fall back to
`checkMemoryLimit(identifier, maxRequests, windowSeconds * 1000)`.  The
successful path never touches the in-memory store. -/
def checkRedisLimit (b : RedisBehavior) (mem : RLStore) (identifier : String)
    (maxRequests : Nat) (windowSeconds : Int) (now : Int) :
    RateLimitResult × RLStore :=
  match b with
  | .nullClient => checkMemoryLimit mem identifier maxRequests (windowSeconds * 1000) now
  | .throws => checkMemoryLimit mem identifier maxRequests (windowSeconds * 1000) now
  | .ok count ttl =>
    if maxRequests ≤ count then
      ({ allowed := false, remaining := 0,
         resetTime := now + ttl * 1000, totalHits := count }, mem)
    else
      ({ allowed := true, remaining := maxRequests - count - 1,
         resetTime := now + windowSeconds * 1000, totalHits := count + 1 }, mem)

/-- `RateLimit.checkLimit(identifier, {maxRequests, windowMs})`:
`windowSeconds = Math.floor(windowMs / 1000)`; Redis is tried first when
ready, otherwise the in-memory fallback runs with the original `windowMs`. -/
def checkLimit (redis : RedisAvail) (mem : RLStore) (identifier : String)
    (maxRequests : Nat) (windowMs : Int) (now : Int) : RateLimitResult × RLStore :=
  let windowSeconds := Int.fdiv windowMs 1000
  match redis with
  | .down => checkMemoryLimit mem identifier maxRequests windowMs now
  | .up b => checkRedisLimit b mem identifier maxRequests windowSeconds now

/-- `RateLimit.checkMessageLimit`: the message-send preset, identifier
namespace `msg:`, 20 requests per 60000 ms. -/
def checkMessageLimit (redis : RedisAvail) (mem : RLStore) (identifier : String)
    (now : Int) : RateLimitResult × RLStore :=
  checkLimit redis mem ("msg:" ++ identifier) 20 60000 now

/-- A well-formed admission decision for a limit of `maxRequests`: all four
fields are populated coherently. -/
def WellFormedDecision (maxRequests : Nat) (r : RateLimitResult) : Prop :=
  r.remaining ≤ maxRequests ∧
  (r.allowed = false → r.remaining = 0) ∧
  (r.allowed = true → r.totalHits + r.remaining = maxRequests)

lemma checkMemoryLimit_wellFormed (store : RLStore) (identifier : String)
    (maxRequests : Nat) (windowMs now : Int) :
    WellFormedDecision maxRequests
      (checkMemoryLimit store identifier maxRequests windowMs now).1 := by
  unfold checkMemoryLimit WellFormedDecision
  simp only []
  generalize ((store identifier).filter (fun t => now - windowMs < t)) = l
  by_cases h : maxRequests ≤ l.length
  · simp [h]
  · simp only [h, if_false]
    refine ⟨Nat.sub_le _ _, by simp, fun _ => ?_⟩
    simp only [List.length_append, List.length_cons, List.length_nil]
    omega

lemma runChecks_append (identifier : String) (maxRequests : Nat) (w : Int)
    (ts us : List Int) :
    ∀ (store : RLStore),
      runChecks store identifier maxRequests w (ts ++ us) =
        ((runChecks (runChecks store identifier maxRequests w ts).1
            identifier maxRequests w us).1,
         (runChecks store identifier maxRequests w ts).2 ++
           (runChecks (runChecks store identifier maxRequests w ts).1
             identifier maxRequests w us).2) := by
  induction ts with
  | nil => intro store; simp [runChecks]
  | cons t ts ih =>
    intro store
    simp only [List.cons_append, runChecks, ih, List.append_eq]

/-- During a run of checks that all happen inside one window `[base, base+w)`
and that never fills the record beyond `maxRequests`, every check is admitted
and the record accumulates every timestamp. -/
lemma runChecks_all_admitted (identifier : String) (maxRequests : Nat) (w base : Int) :
    ∀ (ts : List Int) (store : RLStore) (prior : List Int),
      store identifier = prior →
      prior.length + ts.length ≤ maxRequests →
      (∀ x ∈ prior, base ≤ x ∧ x < base + w) →
      (∀ x ∈ ts, base ≤ x ∧ x < base + w) →
      (runChecks store identifier maxRequests w ts).2.map (·.allowed) =
          List.replicate ts.length true ∧
      (runChecks store identifier maxRequests w ts).1 identifier = prior ++ ts
  | [], store, prior, hst, _, _, _ => by simp [runChecks, hst]
  | t :: ts, store, prior, hst, hlen, hprior, hts => by
    have ht : base ≤ t ∧ t < base + w := hts t (by simp)
    have hfilter : prior.filter (fun x => t - w < x) = prior := by
      apply List.filter_eq_self.mpr
      intro a ha
      have := hprior a ha
      simp only [decide_eq_true_eq]
      omega
    have hlt : prior.length < maxRequests := by
      simp only [List.length_cons] at hlen; omega
    have hstep : checkMemoryLimit store identifier maxRequests w t =
        ({ allowed := true, remaining := maxRequests - (prior.length + 1),
           resetTime := t + w, totalHits := prior.length + 1 },
         fun id => if id = identifier then prior ++ [t] else store id) := by
      unfold checkMemoryLimit
      simp only [hst, hfilter, Nat.not_le.mpr hlt, if_false, List.length_append,
        List.length_cons, List.length_nil]
    have hrec := runChecks_all_admitted identifier maxRequests w base ts
      (fun id => if id = identifier then prior ++ [t] else store id) (prior ++ [t])
      (by simp)
      (by simp only [List.length_append, List.length_cons, List.length_nil] at hlen ⊢; omega)
      (by intro x hx
          rcases List.mem_append.mp hx with h | h
          · exact hprior x h
          · simp only [List.mem_singleton] at h; subst h; exact ht)
      (fun x hx => hts x (by simp [hx]))
    simp only [runChecks, hstep, List.map_cons, List.length_cons, List.replicate_succ]
    refine ⟨?_, ?_⟩
    · simp [hrec.1]
    · rw [hrec.2, List.append_assoc]
      rfl

/-- C3 helper: a single check against a full record inside the same window is
rejected with `remaining = 0` and leaves the record as its filtered self. -/
lemma checkMemoryLimit_reject (store : RLStore) (identifier : String)
    (maxRequests : Nat) (w : Int) (t : Int)
    (hfull : maxRequests ≤ ((store identifier).filter (fun x => t - w < x)).length) :
    (checkMemoryLimit store identifier maxRequests w t).1 =
      { allowed := false, remaining := 0,
        resetTime := ((store identifier).filter (fun x => t - w < x)).headD 0 + w,
        totalHits := ((store identifier).filter (fun x => t - w < x)).length } := by
  unfold checkMemoryLimit
  simp only [hfull, if_true]

/-- **C3.** For every `maxRequests = m` and window `w`, starting from a fresh
identifier, a run of `m + 1` admission checks whose clock values all lie in
one window `[base, base + w)` admits the first `m` calls and rejects the
`(m+1)`-th with `allowed = false` and `remaining = 0`. -/
theorem fresh_identifier_window_admits_then_rejects
    (maxRequests : Nat) (w base : Int) (identifier : String) (ts : List Int)
    (hlen : ts.length = maxRequests + 1)
    (hwin : ∀ x ∈ ts, base ≤ x ∧ x < base + w) :
    (runChecks (fun _ => []) identifier maxRequests w ts).2.map (·.allowed) =
        List.replicate maxRequests true ++ [false] ∧
    ((runChecks (fun _ => []) identifier maxRequests w ts).2.map
        (·.remaining)).getLast? = some 0 := by
  have hne : ts ≠ [] := by intro h; simp [h] at hlen
  have hsplit : ts.dropLast ++ [ts.getLast hne] = ts := List.dropLast_append_getLast hne
  have hlen' : ts.dropLast.length = maxRequests := by
    simp only [List.length_dropLast, hlen]; omega
  set t := ts.getLast hne with htdef
  have htwin : base ≤ t ∧ t < base + w := hwin t (List.getLast_mem hne)
  have hfirst := runChecks_all_admitted identifier maxRequests w base ts.dropLast
    (fun _ => []) [] rfl (by simp [hlen'])
    (by intro x hx; simp at hx)
    (fun x hx => hwin x (List.dropLast_subset ts hx))
  have hmidstore : (runChecks (fun _ => []) identifier maxRequests w ts.dropLast).1
      identifier = ts.dropLast := by simpa using hfirst.2
  have hfiltered : (ts.dropLast).filter (fun x => t - w < x) = ts.dropLast := by
    apply List.filter_eq_self.mpr
    intro a ha
    have := hwin a (List.dropLast_subset ts ha)
    simp only [decide_eq_true_eq]
    omega
  have hfull : maxRequests ≤
      (((runChecks (fun _ => []) identifier maxRequests w ts.dropLast).1 identifier).filter
        (fun x => t - w < x)).length := by
    rw [hmidstore, hfiltered, hlen']
  have hrej := checkMemoryLimit_reject
    ((runChecks (fun _ => []) identifier maxRequests w ts.dropLast).1)
    identifier maxRequests w t hfull
  rw [← hsplit, runChecks_append]
  constructor
  · simp only [List.map_append, hfirst.1, hlen', runChecks, hrej, List.map_cons]
    rfl
  · simp only [List.map_append, runChecks, hrej, List.map_cons, List.map_nil]
    simp [List.getLast?_concat]

/-- Witness for C3 at the spec's concrete scenario: limiter preset
`maxRequests = 20`, `windowMs = 60000`, fresh identifier `"a"`, 21 checks at
one instant — the first 20 return `allowed = true`, the 21st returns
`allowed = false` with `remaining = 0`. -/
theorem fresh_identifier_window_admits_then_rejects_witness :
    (runChecks (fun _ => []) "a" 20 60000 (List.replicate 21 0)).2.map (·.allowed) =
        List.replicate 20 true ++ [false] ∧
    ((runChecks (fun _ => []) "a" 20 60000 (List.replicate 21 0)).2.map
        (·.remaining)).getLast? = some 0 :=
  fresh_identifier_window_admits_then_rejects 20 60000 0 "a"
    (List.replicate 21 0) (by decide)
    (by intro x hx
        have : x = 0 := List.eq_of_mem_replicate hx
        subst this; constructor <;> decide)

/-- **C7.** When the shared store is unavailable (`isReady()` false), the
client is `null`, or a Redis operation throws, `checkLimit` transparently
falls back to the in-process backend (with the window resolution the source
uses on each path) and still returns a well-formed admission decision; the
check is a total function — no error surfaces to the caller. -/
theorem backend_failure_falls_back_to_memory
    (mem : RLStore) (identifier : String) (maxRequests : Nat) (windowMs now : Int) :
    (checkLimit .down mem identifier maxRequests windowMs now =
      checkMemoryLimit mem identifier maxRequests windowMs now) ∧
    (checkLimit (.up .nullClient) mem identifier maxRequests windowMs now =
      checkMemoryLimit mem identifier maxRequests (Int.fdiv windowMs 1000 * 1000) now) ∧
    (checkLimit (.up .throws) mem identifier maxRequests windowMs now =
      checkMemoryLimit mem identifier maxRequests (Int.fdiv windowMs 1000 * 1000) now) ∧
    WellFormedDecision maxRequests
      (checkLimit .down mem identifier maxRequests windowMs now).1 ∧
    WellFormedDecision maxRequests
      (checkLimit (.up .nullClient) mem identifier maxRequests windowMs now).1 ∧
    WellFormedDecision maxRequests
      (checkLimit (.up .throws) mem identifier maxRequests windowMs now).1 :=
  ⟨rfl, rfl, rfl,
   checkMemoryLimit_wellFormed mem identifier maxRequests windowMs now,
   checkMemoryLimit_wellFormed mem identifier maxRequests (Int.fdiv windowMs 1000 * 1000) now,
   checkMemoryLimit_wellFormed mem identifier maxRequests (Int.fdiv windowMs 1000 * 1000) now⟩

/-- **C10.** Invariant of the in-process backend, for one check with a
positive window at a clock value at or after every stored timestamp: the
stored list stays within `maxRequests` entries, every stored entry lies in
the trailing window `(now - windowMs, now]` of this (most recent) check, and
a rejected check changes the record only by dropping expired entries. -/
theorem memory_backend_record_invariant
    (store : RLStore) (identifier : String) (maxRequests : Nat) (windowMs now : Int)
    (hw : 0 < windowMs) (hclock : ∀ u ∈ store identifier, u ≤ now) :
    ((store identifier).length ≤ maxRequests →
      ((checkMemoryLimit store identifier maxRequests windowMs now).2 identifier).length
        ≤ maxRequests) ∧
    (∀ t ∈ (checkMemoryLimit store identifier maxRequests windowMs now).2 identifier,
      now - windowMs < t ∧ t ≤ now) ∧
    ((checkMemoryLimit store identifier maxRequests windowMs now).1.allowed = false →
      (checkMemoryLimit store identifier maxRequests windowMs now).2 identifier =
        (store identifier).filter (fun t => now - windowMs < t)) := by
  by_cases h : maxRequests ≤
      ((store identifier).filter (fun t => now - windowMs < t)).length
  · have hstore : (checkMemoryLimit store identifier maxRequests windowMs now).2 identifier =
        (store identifier).filter (fun t => now - windowMs < t) := by
      unfold checkMemoryLimit
      simp only [h, if_true]
    have hres : (checkMemoryLimit store identifier maxRequests windowMs now).1.allowed
        = false := by
      unfold checkMemoryLimit
      simp only [h, if_true]
    rw [hstore]
    refine ⟨fun hle => le_trans (List.length_filter_le _ _) hle, fun t ht => ?_,
      fun _ => rfl⟩
    have hmem := List.mem_filter.mp ht
    exact ⟨of_decide_eq_true hmem.2, hclock t hmem.1⟩
  · have hstore : (checkMemoryLimit store identifier maxRequests windowMs now).2 identifier =
        (store identifier).filter (fun t => now - windowMs < t) ++ [now] := by
      unfold checkMemoryLimit
      simp only [h, if_false]
      simp
    have hres : (checkMemoryLimit store identifier maxRequests windowMs now).1.allowed
        = true := by
      unfold checkMemoryLimit
      simp only [h, if_false]
    rw [hstore]
    refine ⟨fun _ => ?_, fun t ht => ?_, fun hfalse => by rw [hres] at hfalse; simp at hfalse⟩
    · simp only [List.length_append, List.length_cons, List.length_nil]
      have := Nat.lt_of_not_le h
      omega
    · rcases List.mem_append.mp ht with hmem | hmem
      · have hm := List.mem_filter.mp hmem
        exact ⟨of_decide_eq_true hm.2, hclock t hm.1⟩
      · simp only [List.mem_singleton] at hmem
        subst hmem
        exact ⟨by omega, le_refl _⟩

/-- Witness for C10: a concrete store with one fresh entry for `"k"`,
preset 20/60000, checked at time 5. -/
theorem memory_backend_record_invariant_witness :
    (((fun id => if id = "k" then [(3 : Int)] else []) : RLStore) "k").length ≤ 20 ∧
    (((checkMemoryLimit (fun id => if id = "k" then [(3 : Int)] else [])
        "k" 20 60000 5).2 "k").length ≤ 20) ∧
    (∀ t ∈ (checkMemoryLimit (fun id => if id = "k" then [(3 : Int)] else [])
        "k" 20 60000 5).2 "k", (5 : Int) - 60000 < t ∧ t ≤ 5) := by
  have h := memory_backend_record_invariant
    (fun id => if id = "k" then [(3 : Int)] else []) "k" 20 60000 5
    (by decide)
    (by intro u hu
        simp only [if_true, List.mem_singleton] at hu
        subst hu; decide)
  exact ⟨by decide, h.1 (by decide), h.2.1⟩

/-! ## Message store

In-process backend (`ChatServer.saveMessage` / `ChatServer.getMessages` in
`src/unnamed/part_002`, fallback path): `messages.push(message)` followed by
`if (messages.length > 100) messages.shift()`; `getMessages` returns the
array itself (oldest first).

Shared backend (`RedisManager.saveMessage` / `getMessages` in
`src/backend/lib/redis.js` and the Redis path of `ChatServer`): `lPush` to
the head, `lTrim(0, 99)`, so the stored list is newest-first;
`ChatServer.getMessages` reads `lRange(0, -1)` (everything) and reverses,
`RedisManager.getMessages(count)` reads `lRange(0, count-1)` and reverses.
The store is generic in the element type (JS is untyped). -/

/-- In-process append: push, then shift when over 100 entries. -/
def memSave (messages : List α) (message : α) : List α :=
  if 100 < (messages ++ [message]).length then (messages ++ [message]).tail
  else messages ++ [message]

/-- In-process `getMessages`: the array, oldest first. -/
def chatGetMessagesMem (messages : List α) : List α := messages

/-- Shared-store append: `lPush` + `lTrim(0, 99)` keep the 100 newest,
newest first. -/
def redisSaveMessage (lst : List α) (message : α) : List α :=
  (message :: lst).take 100

/-- `ChatServer.getMessages`, Redis path: `lRange(0, -1)` then `reverse`. -/
def chatGetMessagesRedis (lst : List α) : List α := lst.reverse

/-- `RedisManager.getMessages(count)`: `lRange(0, count-1)` then `reverse`. -/
def redisGetMessages (count : Nat) (lst : List α) : List α :=
  (lst.take count).reverse

/-- The last `n` entries of a list, in order. -/
def lastN (n : Nat) (l : List α) : List α := l.drop (l.length - n)

lemma lastN_of_length_le {n : Nat} {l : List α} (h : l.length ≤ n) :
    lastN n l = l := by
  unfold lastN
  rw [Nat.sub_eq_zero_of_le h, List.drop_zero]

lemma lastN_cons_of_le {n : Nat} (a : α) {l : List α} (h : n ≤ l.length) :
    lastN n (a :: l) = lastN n l := by
  unfold lastN
  have : (a :: l).length - n = (l.length - n) + 1 := by
    simp only [List.length_cons]; omega
  rw [this, List.drop_succ_cons]

lemma length_lastN_le (n : Nat) (l : List α) : (lastN n l).length ≤ n := by
  unfold lastN
  simp only [List.length_drop]
  omega

/-- The in-process store after any sequence of appends holds exactly the last
100 appended entries, oldest first. -/
lemma foldl_memSave (xs : List α) :
    ∀ (acc : List α), acc.length ≤ 100 →
      List.foldl memSave acc xs = lastN 100 (acc ++ xs) := by
  induction xs with
  | nil =>
    intro acc hacc
    simp [lastN_of_length_le hacc]
  | cons x xs ih =>
    intro acc hacc
    by_cases hlen : acc.length + 1 ≤ 100
    · have hsave : memSave acc x = acc ++ [x] := by
        unfold memSave
        have : ¬ 100 < (acc ++ [x]).length := by
          simp only [List.length_append, List.length_cons, List.length_nil]; omega
        simp only [this, if_false]
      rw [List.foldl_cons, hsave, ih (acc ++ [x]) (by
        simp only [List.length_append, List.length_cons, List.length_nil]; omega)]
      rw [List.append_assoc]
      rfl
    · have hacc100 : acc.length = 100 := by omega
      cases acc with
      | nil => simp at hacc100
      | cons a t =>
        have hsave : memSave (a :: t) x = t ++ [x] := by
          unfold memSave
          split
          · simp
          · next hcond =>
            exfalso
            apply hcond
            simp only [List.cons_append, List.length_cons, List.length_append,
              List.length_nil]
            simp only [List.length_cons] at hacc100
            omega
        have ht : t.length = 99 := by
          simp only [List.length_cons] at hacc100; omega
        rw [List.foldl_cons, hsave, ih (t ++ [x]) (by
          simp only [List.length_append, List.length_cons, List.length_nil]; omega)]
        have hassoc : (t ++ [x]) ++ xs = t ++ x :: xs := by
          rw [List.append_assoc]; rfl
        rw [hassoc, List.cons_append, lastN_cons_of_le a (by
          simp only [List.length_append, List.length_cons]; omega)]

/-- The shared-store list mirrors the in-process store in reverse. -/
lemma foldl_redisSave (xs : List α) :
    ∀ (acc : List α), acc.length ≤ 100 →
      List.foldl redisSaveMessage acc.reverse xs =
        (List.foldl memSave acc xs).reverse := by
  induction xs with
  | nil => intro acc _; rfl
  | cons x xs ih =>
    intro acc hacc
    have hstep : redisSaveMessage acc.reverse x = (memSave acc x).reverse := by
      unfold redisSaveMessage memSave
      split
      · next hcond =>
        cases acc with
        | nil => simp at hcond
        | cons a t =>
          have ht : t.length = 99 := by
            simp only [List.cons_append, List.length_cons, List.length_append,
              List.length_nil] at hcond
            simp only [List.length_cons] at hacc
            omega
          have h1 : x :: (a :: t).reverse = (x :: t.reverse) ++ [a] := by
            simp
          rw [h1, List.take_left' (by simp [ht])]
          simp
      · next hcond =>
        rw [List.take_of_length_le (by
          simp only [List.length_cons, List.length_reverse]
          simp only [List.cons_append, List.length_cons, List.length_append,
            List.length_nil] at hcond
          omega)]
        simp
    rw [List.foldl_cons, List.foldl_cons, hstep,
      ih (memSave acc x) (by
        unfold memSave
        split
        · next hcond =>
          simp only [List.length_tail, List.length_append, List.length_cons,
            List.length_nil]
          omega
        · next hcond =>
          simp only [List.length_append, List.length_cons, List.length_nil] at hcond ⊢
          omega)]

set_option maxRecDepth 10000 in
/-- **C4.** Both message-store backends never hold more than 100 entries,
appending beyond capacity evicts exactly the oldest entries (the store is
always the last 100 appends, in order), and the recent-messages queries
return those entries oldest first; concretely, appending 1..150 leaves
51..150, returned in ascending order by both backends. -/
theorem message_store_capacity_eviction_order :
    (∀ (α : Type) (xs : List α),
      (List.foldl memSave ([] : List α) xs).length ≤ 100 ∧
      (List.foldl redisSaveMessage ([] : List α) xs).length ≤ 100 ∧
      List.foldl memSave ([] : List α) xs = lastN 100 xs ∧
      chatGetMessagesMem (List.foldl memSave ([] : List α) xs) = lastN 100 xs ∧
      chatGetMessagesRedis (List.foldl redisSaveMessage ([] : List α) xs) = lastN 100 xs ∧
      redisGetMessages 100 (List.foldl redisSaveMessage ([] : List α) xs) = lastN 100 xs) ∧
    List.foldl memSave [] ((List.range 150).map (fun n => n + 1)) =
      (List.range 100).map (fun n => n + 51) ∧
    redisGetMessages 100
        (List.foldl redisSaveMessage [] ((List.range 150).map (fun n => n + 1))) =
      (List.range 100).map (fun n => n + 51) := by
  have hmain : ∀ (α : Type) (xs : List α),
      (List.foldl memSave ([] : List α) xs).length ≤ 100 ∧
      (List.foldl redisSaveMessage ([] : List α) xs).length ≤ 100 ∧
      List.foldl memSave ([] : List α) xs = lastN 100 xs ∧
      chatGetMessagesMem (List.foldl memSave ([] : List α) xs) = lastN 100 xs ∧
      chatGetMessagesRedis (List.foldl redisSaveMessage ([] : List α) xs) = lastN 100 xs ∧
      redisGetMessages 100 (List.foldl redisSaveMessage ([] : List α) xs) = lastN 100 xs := by
    intro α xs
    have hmem : List.foldl memSave ([] : List α) xs = lastN 100 xs := by
      have := foldl_memSave xs ([] : List α) (by simp)
      simpa using this
    have hredis : List.foldl redisSaveMessage ([] : List α) xs =
        (lastN 100 xs).reverse := by
      have := foldl_redisSave xs ([] : List α) (by simp)
      simp only [List.reverse_nil] at this
      rw [this, hmem]
    refine ⟨?_, ?_, hmem, ?_, ?_, ?_⟩
    · rw [hmem]; exact length_lastN_le 100 xs
    · rw [hredis]
      simp only [List.length_reverse]
      exact length_lastN_le 100 xs
    · unfold chatGetMessagesMem; exact hmem
    · unfold chatGetMessagesRedis
      rw [hredis, List.reverse_reverse]
    · unfold redisGetMessages
      rw [hredis, List.take_of_length_le (by
        simp only [List.length_reverse]
        exact length_lastN_le 100 xs), List.reverse_reverse]
  refine ⟨hmain, ?_, ?_⟩
  · decide
  · decide

/-! ## Sanitizer (`ServerEncryption.sanitizeInput` in `src/backend/lib/redis.js`)

```js
return input
  .trim()
  .substring(0, 1000)
  .replace(/<script\b[^<]*(?:(?!<\/script>)<[^<]*)*<\/script>/gi, '')
  .replace(/<[^>]*>?/gm, '')
  .replace(/javascript:/gi, '')
  .replace(/on\w+\s*=\s*["\'][^"\']*["\']|on\w+\s*=\s*\w+/gi, '');
```

Each global regex replacement is embedded as a left-to-right scan that at
every position either removes a match of that specific pattern (resuming
after it, as `String.replace` with an empty replacement does) or emits the
character and moves on.  The scans are written with an explicit fuel argument
to keep the recursion structural (so that concrete inputs evaluate by
`decide`); fuel equal to the input length always suffices because every
match of every pattern here consumes at least one character, and every
recursive call burns one fuel unit while strictly shortening the list.
The JS whitespace class is modelled by its members that can occur in the
inputs considered here (ASCII whitespace and NBSP). -/

/-- ASCII lowering, the fragment of JS case-insensitive (`/i`) matching
relevant to the ASCII patterns of `sanitizeInput`. -/
def asciiLower (c : Char) : Char :=
  if 'A' ≤ c ∧ c ≤ 'Z' then Char.ofNat (c.toNat + 32) else c

/-- Whitespace for `trim` and `\s`. -/
def isJsSpace (c : Char) : Bool :=
  c.toNat = 32 || c.toNat = 9 || c.toNat = 10 || c.toNat = 11 ||
  c.toNat = 12 || c.toNat = 13 || c.toNat = 160

/-- JS `\w`: `[A-Za-z0-9_]`. -/
def isWordChar (c : Char) : Bool :=
  ('a' ≤ c && c ≤ 'z') || ('A' ≤ c && c ≤ 'Z') || ('0' ≤ c && c ≤ '9') || c == '_'

/-- The quote class `["']` of the event-handler pattern. -/
def isQuote (c : Char) : Bool := c == '"' || c == '\''

/-- `String.prototype.trim`. -/
def trimL (l : List Char) : List Char :=
  ((l.dropWhile isJsSpace).reverse.dropWhile isJsSpace).reverse

/-- `s.trim()` on strings. -/
def jsTrim (s : String) : String := ⟨trimL s.data⟩

/-- Strip a case-insensitive literal pattern from the front of a list,
returning the remainder on success. -/
def stripCI : List Char → List Char → Option (List Char)
  | [], l => some l
  | _ :: _, [] => none
  | p :: ps, c :: cs => if asciiLower c = asciiLower p then stripCI ps cs else none

/-- `<script` — the opening literal of the script-block pattern. -/
def scriptOpenPat : List Char := ['<', 's', 'c', 'r', 'i', 'p', 't']

/-- `</script>` — the closing literal of the script-block pattern. -/
def scriptClosePat : List Char := ['<', '/', 's', 'c', 'r', 'i', 'p', 't', '>']

/-- After `<script\b`, the pattern consumes `[^<]*` then repeats
`(?:(?!<\/script>)<[^<]*)*`, and finally requires `</script>`: skip to the
next `<`; finish if it opens `</script>`, otherwise consume it and repeat. -/
def scriptBodyF : Nat → List Char → Option (List Char)
  | 0, _ => none
  | fuel + 1, l =>
    match l.dropWhile (fun c => !(c == '<')) with
    | [] => none
    | c :: rest =>
      match stripCI scriptClosePat (c :: rest) with
      | some r => some r
      | none => scriptBodyF fuel (rest.dropWhile (fun c => !(c == '<')))

/-- Match `/<script\b[^<]*(?:(?!<\/script>)<[^<]*)*<\/script>/i` at the head
of the list, returning the remainder after the match. -/
def tryScriptMatch (l : List Char) : Option (List Char) :=
  match stripCI scriptOpenPat l with
  | none => none
  | some rest =>
    match rest with
    | [] => none
    | c :: _ => if isWordChar c then none else scriptBodyF rest.length rest

/-- The global replacement of script blocks by the empty string. -/
def removeScriptBlocksF : Nat → List Char → List Char
  | _, [] => []
  | 0, l => l
  | fuel + 1, c :: rest =>
    match tryScriptMatch (c :: rest) with
    | some r => removeScriptBlocksF fuel r
    | none => c :: removeScriptBlocksF fuel rest

/-- `.replace(/<script\b[^<]*(?:(?!<\/script>)<[^<]*)*<\/script>/gi, '')`. -/
def removeScriptBlocks (l : List Char) : List Char :=
  removeScriptBlocksF l.length l

/-- `.replace(/<[^>]*>?/gm, '')`: at each `<`, drop through the next `>`
(or to the end when there is none). -/
def removeTagsF : Nat → List Char → List Char
  | _, [] => []
  | 0, l => l
  | fuel + 1, c :: rest =>
    if c = '<' then
      match rest.dropWhile (fun x => !(x == '>')) with
      | [] => []
      | _ :: rest' => removeTagsF fuel rest'
    else c :: removeTagsF fuel rest

/-- The HTML-tag removal pass. -/
def removeTags (l : List Char) : List Char := removeTagsF l.length l

/-- The literal `javascript:`. -/
def jsProtoPat : List Char := ['j', 'a', 'v', 'a', 's', 'c', 'r', 'i', 'p', 't', ':']

/-- `.replace(/javascript:/gi, '')`. -/
def removeJsUrisF : Nat → List Char → List Char
  | _, [] => []
  | 0, l => l
  | fuel + 1, c :: rest =>
    match stripCI jsProtoPat (c :: rest) with
    | some r => removeJsUrisF fuel r
    | none => c :: removeJsUrisF fuel rest

/-- The `javascript:` removal pass. -/
def removeJsUris (l : List Char) : List Char := removeJsUrisF l.length l

/-- Match `/on\w+\s*=\s*["'][^"']*["']|on\w+\s*=\s*\w+/i` at the head of the
list.  The quoted alternative is attempted first, exactly as the regex
alternation does; when the character after `=` and optional spaces is a
quote but no closing quote follows, the unquoted alternative also fails
there (it needs a `\w` at that same position), so the whole match fails. -/
def tryHandlerMatch (l : List Char) : Option (List Char) :=
  match stripCI ['o', 'n'] l with
  | none => none
  | some r1 =>
    match r1 with
    | [] => none
    | c1 :: _ =>
      if isWordChar c1 then
        match (r1.dropWhile isWordChar).dropWhile isJsSpace with
        | '=' :: r4 =>
          match r4.dropWhile isJsSpace with
          | [] => none
          | q :: r6 =>
            if isQuote q then
              match r6.dropWhile (fun c => !(isQuote c)) with
              | _ :: r7 => some r7
              | [] => none
            else if isWordChar q then some ((q :: r6).dropWhile isWordChar)
            else none
        | _ => none
      else none

/-- `.replace(/on\w+\s*=\s*["\'][^"\']*["\']|on\w+\s*=\s*\w+/gi, '')`. -/
def removeHandlersF : Nat → List Char → List Char
  | _, [] => []
  | 0, l => l
  | fuel + 1, c :: rest =>
    match tryHandlerMatch (c :: rest) with
    | some r => removeHandlersF fuel r
    | none => c :: removeHandlersF fuel rest

/-- The event-handler removal pass. -/
def removeHandlers (l : List Char) : List Char := removeHandlersF l.length l

/-- `ServerEncryption.sanitizeInput` on a string input: trim, truncate to
1000 characters, then the four removal passes in source order. -/
def sanitizeL (l : List Char) : List Char :=
  removeHandlers (removeJsUris (removeTags (removeScriptBlocks ((trimL l).take 1000))))

/-- `sanitizeInput` (string case; a non-string input returns `''`). -/
def sanitizeInput (s : String) : String := ⟨sanitizeL s.data⟩

lemma stripCI_suffix : ∀ (pat l r : List Char), stripCI pat l = some r → r <:+ l
  | [], l, r, h => by
    simp only [stripCI, Option.some.injEq] at h
    exact h ▸ List.suffix_refl l
  | p :: ps, [], r, h => by simp [stripCI] at h
  | p :: ps, c :: cs, r, h => by
    simp only [stripCI] at h
    by_cases hc : asciiLower c = asciiLower p
    · rw [if_pos hc] at h
      exact (stripCI_suffix ps cs r h).trans (List.suffix_cons c cs)
    · rw [if_neg hc] at h
      exact absurd h (by simp)

lemma scriptBodyF_suffix : ∀ (fuel : Nat) (l r : List Char),
    scriptBodyF fuel l = some r → r <:+ l := by
  intro fuel
  induction fuel with
  | zero => intro l r h; simp [scriptBodyF] at h
  | succ fuel ih =>
    intro l r h
    unfold scriptBodyF at h
    split at h
    · exact absurd h (by simp)
    · rename_i c rest hdw
      have hsufl : c :: rest <:+ l := hdw ▸ List.dropWhile_suffix _
      split at h
      · rename_i r' hstrip
        have hr : r' = r := by injection h
        subst hr
        exact (stripCI_suffix _ _ _ hstrip).trans hsufl
      · rename_i hstrip
        have hrec := ih _ _ h
        have h1 : rest.dropWhile (fun c => !(c == '<')) <:+ rest :=
          List.dropWhile_suffix _
        exact hrec.trans (h1.trans ((List.suffix_cons c rest).trans hsufl))

lemma tryScriptMatch_suffix (l r : List Char) (h : tryScriptMatch l = some r) :
    r <:+ l := by
  unfold tryScriptMatch at h
  split at h
  · exact absurd h (by simp)
  · rename_i rest hstrip
    have hrl : rest <:+ l := stripCI_suffix _ _ _ hstrip
    split at h
    · exact absurd h (by simp)
    · rename_i c cs
      split at h
      · exact absurd h (by simp)
      · exact (scriptBodyF_suffix _ _ _ h).trans hrl

lemma tryHandlerMatch_suffix (l r : List Char) (h : tryHandlerMatch l = some r) :
    r <:+ l := by
  unfold tryHandlerMatch at h
  split at h
  · exact absurd h (by simp)
  · rename_i r1 hstrip
    have hr1 : r1 <:+ l := stripCI_suffix _ _ _ hstrip
    split at h
    · exact absurd h (by simp)
    · rename_i c1 cs1
      split at h
      · split at h
        · rename_i r4 hr4eq
          have hr4 : r4 <:+ l := by
            have h0 : '=' :: r4 <:+ c1 :: cs1 :=
              hr4eq ▸ ((List.dropWhile_suffix _).trans (List.dropWhile_suffix _))
            exact ((List.suffix_cons '=' r4).trans h0).trans hr1
          split at h
          · exact absurd h (by simp)
          · rename_i q r6 hr5
            have hq6 : q :: r6 <:+ r4 := hr5 ▸ List.dropWhile_suffix _
            split at h
            · split at h
              · rename_i x r7 hr7
                have hr : r7 = r := by injection h
                have hx : r7 <:+ r6.dropWhile (fun c => !(isQuote c)) :=
                  hr7 ▸ List.suffix_cons x r7
                exact hr ▸ ((hx.trans (List.dropWhile_suffix _)).trans
                  (((List.suffix_cons q r6).trans hq6).trans hr4))
              · exact absurd h (by simp)
            · split at h
              · have hr : (q :: r6).dropWhile isWordChar = r := by injection h
                exact hr ▸ ((List.dropWhile_suffix _).trans (hq6.trans hr4))
              · exact absurd h (by simp)
        · exact absurd h (by simp)
      · exact absurd h (by simp)

lemma removeScriptBlocksF_sublist : ∀ (fuel : Nat) (l : List Char),
    List.Sublist (removeScriptBlocksF fuel l) l := by
  intro fuel
  induction fuel with
  | zero =>
    intro l
    cases l with
    | nil => simp [removeScriptBlocksF]
    | cons c rest => simp [removeScriptBlocksF]
  | succ fuel ih =>
    intro l
    cases l with
    | nil => simp [removeScriptBlocksF]
    | cons c rest =>
      unfold removeScriptBlocksF
      split
      · rename_i r hm
        exact (ih r).trans (tryScriptMatch_suffix _ _ hm).sublist
      · exact (ih rest).cons₂ c

lemma removeJsUrisF_sublist : ∀ (fuel : Nat) (l : List Char),
    List.Sublist (removeJsUrisF fuel l) l := by
  intro fuel
  induction fuel with
  | zero =>
    intro l
    cases l with
    | nil => simp [removeJsUrisF]
    | cons c rest => simp [removeJsUrisF]
  | succ fuel ih =>
    intro l
    cases l with
    | nil => simp [removeJsUrisF]
    | cons c rest =>
      unfold removeJsUrisF
      split
      · rename_i r hm
        exact (ih r).trans (stripCI_suffix _ _ _ hm).sublist
      · exact (ih rest).cons₂ c

lemma removeHandlersF_sublist : ∀ (fuel : Nat) (l : List Char),
    List.Sublist (removeHandlersF fuel l) l := by
  intro fuel
  induction fuel with
  | zero =>
    intro l
    cases l with
    | nil => simp [removeHandlersF]
    | cons c rest => simp [removeHandlersF]
  | succ fuel ih =>
    intro l
    cases l with
    | nil => simp [removeHandlersF]
    | cons c rest =>
      unfold removeHandlersF
      split
      · rename_i r hm
        exact (ih r).trans (tryHandlerMatch_suffix _ _ hm).sublist
      · exact (ih rest).cons₂ c

lemma removeTagsF_sublist : ∀ (fuel : Nat) (l : List Char),
    List.Sublist (removeTagsF fuel l) l := by
  intro fuel
  induction fuel with
  | zero =>
    intro l
    cases l with
    | nil => simp [removeTagsF]
    | cons c rest => simp [removeTagsF]
  | succ fuel ih =>
    intro l
    cases l with
    | nil => simp [removeTagsF]
    | cons c rest =>
      unfold removeTagsF
      split
      · rename_i hc
        split
        · exact List.nil_sublist _
        · rename_i x rest' hdw
          have h1 : x :: rest' <:+ rest := hdw ▸ List.dropWhile_suffix _
          have h2 : rest' <:+ rest := (List.suffix_cons x rest').trans h1
          exact ((ih rest').trans h2.sublist).trans (List.sublist_cons_self c rest)
      · exact (ih rest).cons₂ c

/-- The tag-removal pass leaves no `<` behind (every `<` starts a match of
`<[^>]*>?`). -/
lemma removeTagsF_no_lt : ∀ (fuel : Nat) (l : List Char),
    l.length ≤ fuel → '<' ∉ removeTagsF fuel l := by
  intro fuel
  induction fuel with
  | zero =>
    intro l hl
    have : l = [] := List.eq_nil_of_length_eq_zero (Nat.le_zero.mp hl)
    subst this
    simp [removeTagsF]
  | succ fuel ih =>
    intro l hl
    cases l with
    | nil => simp [removeTagsF]
    | cons c rest =>
      unfold removeTagsF
      split
      · rename_i hc
        split
        · simp
        · rename_i x rest' hdw
          have h1 : x :: rest' <:+ rest := hdw ▸ List.dropWhile_suffix _
          have h2 : rest'.length < rest.length := by
            have := h1.length_le
            simp only [List.length_cons] at this
            omega
          apply ih
          simp only [List.length_cons] at hl
          omega
      · rename_i hc
        simp only [List.mem_cons, not_or]
        refine ⟨fun hcc => hc hcc.symm, ?_⟩
        apply ih
        simp only [List.length_cons] at hl
        omega

/-- The sanitizer output contains no `<`, hence no markup tags and no script
blocks. -/
lemma sanitizeL_no_lt (l : List Char) : '<' ∉ sanitizeL l := by
  unfold sanitizeL removeHandlers removeJsUris removeTags
  intro hmem
  have h1 := (removeHandlersF_sublist _ _).subset hmem
  have h2 := (removeJsUrisF_sublist _ _).subset h1
  exact removeTagsF_no_lt _ _ (le_refl _) h2

/-- The sanitizer never returns more than 1000 characters: truncation happens
before the removal passes, and removal only shortens. -/
lemma sanitizeL_length_le (l : List Char) : (sanitizeL l).length ≤ 1000 := by
  unfold sanitizeL removeHandlers removeJsUris removeTags removeScriptBlocks
  refine le_trans (removeHandlersF_sublist _ _).length_le ?_
  refine le_trans (removeJsUrisF_sublist _ _).length_le ?_
  refine le_trans (removeTagsF_sublist _ _).length_le ?_
  refine le_trans (removeScriptBlocksF_sublist _ _).length_le ?_
  exact List.length_take_le _ _

/-! ## Validator (`ServerEncryption.validateMessage` in `src/backend/lib/redis.js`) -/

/-- A JavaScript value as far as the validator can distinguish it: a string,
or anything else carrying only its truthiness. -/
inductive JVal where
  | jstr (s : String)
  | jother (truthy : Bool)
  deriving Repr, DecidableEq

/-- The fields of an inbound wire object the validator reads. -/
structure WireMsg where
  content : Option JVal := none
  type : Option JVal := none
  deriving Repr, DecidableEq

/-- The validator's argument: a falsy or non-object value, or an object. -/
inductive WireInput where
  | notObject
  | obj (m : WireMsg)
  deriving Repr, DecidableEq

/-- The validator's result: `{valid, error?}` on rejection,
`{valid, sanitized}` on success (we record the sanitized content; the rest of
the spread `{...message, content}` is the input object unchanged). -/
structure ValidationResult where
  valid : Bool
  error : Option String := none
  sanitizedContent : Option String := none
  deriving Repr, DecidableEq

/-- JS truthiness of a field value (`undefined`, `''` and falsy non-strings
are falsy). -/
def isTruthy : Option JVal → Bool
  | none => false
  | some (.jstr s) => !(s == "")
  | some (.jother t) => t

/-- `typeof v === 'string'`. -/
def isStringVal : Option JVal → Bool
  | some (.jstr _) => true
  | _ => false

/-- `ServerEncryption.validateMessage`.  Check order follows the source:
object shape, `!content || typeof content !== 'string'` (note `''` is falsy,
so empty content is caught here, making the `length === 0` arm of the next
check unreachable), length bounds, `!type || typeof type !== 'string'`,
then emptiness after sanitization. -/
def validateMessage : WireInput → ValidationResult
  | .notObject => { valid := false, error := some "Invalid message format" }
  | .obj m =>
    match m.content with
    | some (JVal.jstr content) =>
      if content == "" then
        { valid := false, error := some "Message content is required" }
      else if content.length = 0 ∨ 1000 < content.length then
        { valid := false, error := some "Message content length invalid" }
      else if !(isTruthy m.type) || !(isStringVal m.type) then
        { valid := false, error := some "Message type is required" }
      else if (sanitizeInput content).length = 0 then
        { valid := false, error := some "Message content is empty after sanitization" }
      else { valid := true, sanitizedContent := some (sanitizeInput content) }
    | _ => { valid := false, error := some "Message content is required" }

/-- `n` copies of `'a'`: plain content of a given length. -/
def aRep (n : Nat) : String := ⟨List.replicate n 'a'⟩

set_option maxRecDepth 100000 in
/-- **C5.** The validator rejects content of length 0 and of length 1001,
accepts plain content of length 1 and of length 1000, and rejects content
that sanitizes to empty with an error distinct from the length-violation
error, reported in the result. -/
theorem validator_content_boundaries :
    (validateMessage (.obj ⟨some (.jstr ""), some (.jstr "message")⟩)).valid = false ∧
    (validateMessage (.obj ⟨some (.jstr (aRep 1001)), some (.jstr "message")⟩)).valid
      = false ∧
    (validateMessage (.obj ⟨some (.jstr (aRep 1001)), some (.jstr "message")⟩)).error
      = some "Message content length invalid" ∧
    (validateMessage (.obj ⟨some (.jstr "a"), some (.jstr "message")⟩)).valid = true ∧
    (validateMessage (.obj ⟨some (.jstr (aRep 1000)), some (.jstr "message")⟩)).valid
      = true ∧
    (validateMessage (.obj ⟨some (.jstr "<script>alert(1)</script>"),
      some (.jstr "message")⟩)).valid = false ∧
    (validateMessage (.obj ⟨some (.jstr "<script>alert(1)</script>"),
      some (.jstr "message")⟩)).error =
      some "Message content is empty after sanitization" ∧
    (some "Message content is empty after sanitization" ≠
      some "Message content length invalid" : Prop) := by
  decide

/-- Does `javascript:` (case-insensitively) occur anywhere in the list? -/
def containsJsProto : List Char → Bool
  | [] => false
  | c :: rest => (stripCI jsProtoPat (c :: rest)).isSome || containsJsProto rest

/-- Does an event-handler-attribute match occur anywhere in the list? -/
def containsHandler : List Char → Bool
  | [] => false
  | c :: rest => (tryHandlerMatch (c :: rest)).isSome || containsHandler rest

/-- Sanitization in the order the spec's sentence prescribes: strip the four
pattern classes first, then trim, then re-truncate to 1000 characters.
(Stated from the spec's wording, for comparison with `sanitizeInput`, which
is taken from the source.) -/
def sanitizeSpecOrder (s : String) : String :=
  ⟨(trimL (removeHandlers (removeJsUris (removeTags (removeScriptBlocks s.data))))).take 1000⟩

/-- **C6 as stated.**  Strip-then-trim order, and the claimed consequences:
trimmed output (no leading/trailing whitespace), bounded length, and absence
of tags, script blocks, `javascript:` URIs and event-handler attributes. -/
def sanitizeSpecClaim : Prop :=
  ∀ s : String,
    sanitizeInput s = sanitizeSpecOrder s ∧
    jsTrim (sanitizeInput s) = sanitizeInput s ∧
    (sanitizeInput s).length ≤ 1000 ∧
    '<' ∉ (sanitizeInput s).data ∧
    containsJsProto (sanitizeInput s).data = false ∧
    containsHandler (sanitizeInput s).data = false

/-- **C6 — counterexample.**  The source trims and truncates *before*
stripping, and stripping can uncover trailing whitespace and re-form
`javascript:`; on the input `javasconx="y"ript: <b>` the sanitized output is
`javascript: ` — not trim-fixed, refuting the claim. -/
theorem sanitize_spec_claim_counterexample : ¬ sanitizeSpecClaim := by
  intro h
  exact absurd (h "javasconx=\"y\"ript: <b>").2.1 (by decide)

/-- **C6 — amended.**  `sanitizeInput` first trims and truncates to 1000
characters and then strips script blocks, markup tags, `javascript:` URIs and
event-handler attributes, in that order; consequently the output never
exceeds 1000 characters and contains no `<` (hence no markup tags or script
blocks), but it can retain leading or trailing whitespace uncovered by tag
removal, and the later passes can re-form `javascript:` URIs and
event-handler text, as the two concrete inputs show. -/
theorem sanitize_amended :
    (∀ s : String,
      (sanitizeInput s).length ≤ 1000 ∧ '<' ∉ (sanitizeInput s).data) ∧
    sanitizeInput "javasconx=\"y\"ript: <b>" = "javascript: " ∧
    containsJsProto (sanitizeInput "javasconx=\"y\"ript: <b>").data = true ∧
    jsTrim (sanitizeInput "javasconx=\"y\"ript: <b>") ≠
      sanitizeInput "javasconx=\"y\"ript: <b>" ∧
    sanitizeInput "oonx=\"a\"nclick=x" = "onclick=x" ∧
    containsHandler (sanitizeInput "oonx=\"a\"nclick=x").data = true := by
  refine ⟨fun s => ⟨?_, ?_⟩, by decide, by decide, by decide, by decide, by decide⟩
  · exact sanitizeL_length_le s.data
  · exact sanitizeL_no_lt s.data

/-! ## Relay server (`ChatServer` in `src/unnamed/part_002`)

The connection registry `this.clients : Map<ws, clientInfo>` is modelled as
an association list keyed by an opaque transport handle (`Nat`); `Map.get`
returns the first (unique) match, `Map.delete` removes the key, and mutating
a looked-up record is `clientsSet`.  `JSON.stringify` is abstracted by a
total serialization function `serializeOut`; the claims depend only on each
broadcast serializing its event once.  `handleMessage` is modelled on the
in-process store path of `saveMessage` (the Redis path is the
`redisSaveMessage` of the store section; the claims proved here do not
depend on the backend).  Inbound `message` events whose `content` is a
truthy non-string throw a `TypeError` inside the `ws.on('message')`
`try/catch` and are dropped; the embedding covers events whose content is a
string or absent. -/

/-- Per-connection record: identity plus activity metadata. -/
structure ClientInfo where
  id : String
  color : String
  joinedAt : Int
  lastActivity : Int
  deriving Repr, DecidableEq

/-- A stored/broadcast chat message (`timestamp` is the instant whose
ISO-8601 rendering the source stores). -/
structure ChatMessage where
  id : String
  content : String
  timestamp : Int
  userId : String
  color : String
  encrypted : Bool
  deriving Repr, DecidableEq

/-- A parsed inbound wire message (`encrypted` absent is `false`, matching
`message.encrypted || false`). -/
structure InboundMsg where
  type : String
  content : Option String := none
  encrypted : Bool := false
  deriving Repr, DecidableEq

/-- The mutable server state the claims touch: registry and message store. -/
structure ServerState where
  clients : List (Nat × ClientInfo)
  messages : List ChatMessage
  deriving Repr, DecidableEq

/-- Outbound payloads of the relay. -/
inductive OutMsg where
  | initMsg (userId : String) (color : String) (msgs : List ChatMessage)
  | newMessage (m : ChatMessage)
  | userCount (n : Nat)
  | pong
  | errorMsg (text : String) (retryAfter : Option Int)
  deriving Repr, DecidableEq

/-- An output effect of an event handler: a direct `ws.send` or a
`this.broadcast(message, excludeClient)` call. -/
inductive OutEvent where
  | sendTo (ws : Nat) (m : OutMsg)
  | broadcast (m : OutMsg) (excludeClient : Option Nat)
  deriving Repr, DecidableEq

/-- `this.clients.get(ws)`. -/
def clientsGet : List (Nat × ClientInfo) → Nat → Option ClientInfo
  | [], _ => none
  | (k, v) :: rest, ws => if k = ws then some v else clientsGet rest ws

/-- In-place update of the record stored under `ws`
(`client.lastActivity = ...` on the object held by the map). -/
def clientsSet (clients : List (Nat × ClientInfo)) (ws : Nat) (v : ClientInfo) :
    List (Nat × ClientInfo) :=
  clients.map (fun p => if p.1 = ws then (ws, v) else p)

/-- `this.clients.delete(ws)`. -/
def clientsDelete (clients : List (Nat × ClientInfo)) (ws : Nat) :
    List (Nat × ClientInfo) :=
  clients.filter (fun p => !(p.1 == ws))

/-- `ChatServer.handleMessage(ws, message)` at clock `now`, with `newId` the
`uuidv4()` drawn for a possible new chat message.  An unregistered `ws`
returns immediately; a `message` event with truthy content that trims
non-empty is stored and broadcast (no rate-limit or validator call appears
on this path in the source); `ping` answers `pong`; other types fall through
the `switch`. -/
def handleMessage (now : Int) (newId : String) (s : ServerState) (ws : Nat)
    (m : InboundMsg) : ServerState × List OutEvent :=
  match clientsGet s.clients ws with
  | none => (s, [])
  | some client =>
    let s1 : ServerState :=
      { s with clients := clientsSet s.clients ws { client with lastActivity := now } }
    if m.type = "message" then
      match m.content with
      | some c =>
        if 0 < (jsTrim c).length then
          let chatMessage : ChatMessage :=
            { id := newId, content := ⟨(jsTrim c).data.take 1000⟩, timestamp := now,
              userId := client.id, color := client.color, encrypted := m.encrypted }
          ({ s1 with messages := memSave s1.messages chatMessage },
           [OutEvent.broadcast (OutMsg.newMessage chatMessage) none])
        else (s1, [])
      | none => (s1, [])
    else if m.type = "ping" then (s1, [OutEvent.sendTo ws OutMsg.pong])
    else (s1, [])

/-- The `ws.on('close')` handler: deregister, broadcast the new count. -/
def handleClose (s : ServerState) (ws : Nat) : ServerState × List OutEvent :=
  ({ s with clients := clientsDelete s.clients ws },
   [OutEvent.broadcast (OutMsg.userCount (clientsDelete s.clients ws).length) none])

/-- The `ws.on('error')` handler: deregister only. -/
def handleError (s : ServerState) (ws : Nat) : ServerState × List OutEvent :=
  ({ s with clients := clientsDelete s.clients ws }, [])

/-- Serialization of a chat message (JSON rendering abstracted). -/
def serializeChat (m : ChatMessage) : String :=
  m.id ++ "|" ++ m.content ++ "|" ++ toString m.timestamp ++ "|" ++ m.userId ++
    "|" ++ m.color ++ "|" ++ (if m.encrypted then "1" else "0")

/-- Serialization of an outbound payload (JSON rendering abstracted). -/
def serializeOut : OutMsg → String
  | .initMsg userId color msgs =>
    "init|" ++ userId ++ "|" ++ color ++ "|" ++
      String.intercalate ";" (msgs.map serializeChat)
  | .newMessage m => "newMessage|" ++ serializeChat m
  | .userCount n => "userCount|" ++ toString n
  | .pong => "pong"
  | .errorMsg text retryAfter =>
    "error|" ++ text ++ (match retryAfter with
      | some n => "|" ++ toString n
      | none => "")

/-- `ChatServer.broadcast(message, excludeClient)`: serialize once, then send
the same string to every registered connection that is not the excluded one
and whose transport is currently OPEN (`ready`). -/
def broadcastDeliveries (clients : List (Nat × ClientInfo)) (ready : Nat → Bool)
    (message : OutMsg) (excludeClient : Option Nat) : List (Nat × String) :=
  clients.filterMap (fun p =>
    if some p.1 ≠ excludeClient ∧ ready p.1 = true then
      some (p.1, serializeOut message)
    else none)

lemma mem_broadcastDeliveries (clients : List (Nat × ClientInfo))
    (ready : Nat → Bool) (message : OutMsg) (excludeClient : Option Nat)
    (ws : Nat) (wire : String) :
    (ws, wire) ∈ broadcastDeliveries clients ready message excludeClient ↔
      (∃ ci, (ws, ci) ∈ clients) ∧ ready ws = true ∧ some ws ≠ excludeClient ∧
        wire = serializeOut message := by
  unfold broadcastDeliveries
  rw [List.mem_filterMap]
  constructor
  · rintro ⟨p, hp, heq⟩
    by_cases hcond : some p.1 ≠ excludeClient ∧ ready p.1 = true
    · rw [if_pos hcond] at heq
      have h1 : p.1 = ws ∧ serializeOut message = wire := by
        have := heq
        injection this with h
        exact ⟨congrArg Prod.fst h, congrArg Prod.snd h⟩
      obtain ⟨hfst, hsnd⟩ := h1
      subst hfst
      exact ⟨⟨p.2, by simpa using hp⟩, hcond.2, hcond.1, hsnd.symm⟩
    · rw [if_neg hcond] at heq
      exact absurd heq (by simp)
  · rintro ⟨⟨ci, hci⟩, hready, hex, rfl⟩
    exact ⟨(ws, ci), hci, by rw [if_pos ⟨hex, hready⟩]⟩

lemma mem_clientsDelete (clients : List (Nat × ClientInfo)) (ws₀ ws : Nat)
    (ci : ClientInfo) (hne : ws ≠ ws₀) :
    (ws, ci) ∈ clientsDelete clients ws₀ ↔ (ws, ci) ∈ clients := by
  unfold clientsDelete
  rw [List.mem_filter]
  simp [hne]

lemma clientsGet_mem_set (v' : ClientInfo) :
    ∀ (clients : List (Nat × ClientInfo)) (ws : Nat) (v : ClientInfo),
      clientsGet clients ws = some v → (ws, v') ∈ clientsSet clients ws v'
  | [], ws, v, h => by simp [clientsGet] at h
  | (k, u) :: rest, ws, v, h => by
    unfold clientsSet
    by_cases hk : k = ws
    · simp [hk]
    · simp only [clientsGet, hk, if_false] at h
      simp only [List.map_cons, List.mem_cons]
      right
      exact clientsGet_mem_set v' rest ws v h

lemma clientsGet_delete (ws : Nat) :
    ∀ (clients : List (Nat × ClientInfo)),
      clientsGet (clientsDelete clients ws) ws = none
  | [] => rfl
  | (k, v) :: rest => by
    have ih := clientsGet_delete ws rest
    unfold clientsDelete at ih ⊢
    by_cases hk : k = ws
    · simp [List.filter_cons, hk, ih]
    · simp [List.filter_cons, hk, clientsGet, ih]

/-- The registry entry after `client.lastActivity = new Date()`. -/
def touch (client : ClientInfo) (now : Int) : ClientInfo :=
  { client with lastActivity := now }

/-- The chat message built in the accept branch of `handleMessage`. -/
def builtMessage (newId : String) (now : Int) (client : ClientInfo)
    (c : String) (encrypted : Bool) : ChatMessage :=
  { id := newId, content := ⟨(jsTrim c).data.take 1000⟩, timestamp := now,
    userId := client.id, color := client.color, encrypted := encrypted }

lemma handleMessage_unregistered (now : Int) (newId : String) (s : ServerState)
    (ws : Nat) (m : InboundMsg) (h : clientsGet s.clients ws = none) :
    handleMessage now newId s ws m = (s, []) := by
  unfold handleMessage
  rw [h]

lemma handleMessage_accept (now : Int) (newId : String) (s : ServerState)
    (ws : Nat) (m : InboundMsg) (client : ClientInfo) (c : String)
    (hc : clientsGet s.clients ws = some client) (ht : m.type = "message")
    (hcont : m.content = some c) (hlen : 0 < (jsTrim c).length) :
    handleMessage now newId s ws m =
      (ServerState.mk (clientsSet s.clients ws (touch client now))
        (memSave s.messages (builtMessage newId now client c m.encrypted)),
       [OutEvent.broadcast
         (OutMsg.newMessage (builtMessage newId now client c m.encrypted)) none]) := by
  unfold handleMessage touch builtMessage
  rw [hc]
  dsimp only
  rw [if_pos ht, hcont]
  dsimp only
  rw [if_pos hlen]

lemma handleMessage_discard (now : Int) (newId : String) (s : ServerState)
    (ws : Nat) (m : InboundMsg) (client : ClientInfo)
    (hc : clientsGet s.clients ws = some client) (ht : m.type = "message")
    (hcont : m.content = none ∨ ∃ c, m.content = some c ∧ (jsTrim c).length = 0) :
    handleMessage now newId s ws m =
      (ServerState.mk (clientsSet s.clients ws (touch client now)) s.messages, []) := by
  unfold handleMessage touch
  rw [hc]
  dsimp only
  rw [if_pos ht]
  rcases hcont with hnone | ⟨c, hsome, hlen⟩
  · rw [hnone]
  · rw [hsome]
    dsimp only
    rw [if_neg (by omega)]

lemma handleMessage_ping (now : Int) (newId : String) (s : ServerState)
    (ws : Nat) (m : InboundMsg) (client : ClientInfo)
    (hc : clientsGet s.clients ws = some client) (ht : ¬ m.type = "message")
    (hp : m.type = "ping") :
    handleMessage now newId s ws m =
      (ServerState.mk (clientsSet s.clients ws (touch client now)) s.messages,
       [OutEvent.sendTo ws OutMsg.pong]) := by
  unfold handleMessage touch
  rw [hc]
  dsimp only
  rw [if_neg ht, if_pos hp]

lemma handleMessage_other (now : Int) (newId : String) (s : ServerState)
    (ws : Nat) (m : InboundMsg) (client : ClientInfo)
    (hc : clientsGet s.clients ws = some client) (ht : ¬ m.type = "message")
    (hp : ¬ m.type = "ping") :
    handleMessage now newId s ws m =
      (ServerState.mk (clientsSet s.clients ws (touch client now)) s.messages, []) := by
  unfold handleMessage touch
  rw [hc]
  dsimp only
  rw [if_neg ht, if_neg hp]

/-- The only output shapes `handleMessage` can produce: nothing, one
`newMessage` broadcast with no exclusion, or one `pong` reply. -/
lemma handleMessage_out_shape (now : Int) (newId : String) (s : ServerState)
    (ws : Nat) (m : InboundMsg) :
    (handleMessage now newId s ws m).2 = [] ∨
    (∃ cm, (handleMessage now newId s ws m).2 =
      [OutEvent.broadcast (OutMsg.newMessage cm) none]) ∨
    (handleMessage now newId s ws m).2 = [OutEvent.sendTo ws OutMsg.pong] := by
  unfold handleMessage
  split
  · left; rfl
  · dsimp only
    split
    · split
      · split
        · right; left; exact ⟨_, rfl⟩
        · left; rfl
      · left; rfl
    · split
      · right; right; rfl
      · left; rfl

/-- Does the output list contain a `newMessage` broadcast? -/
def broadcastsNewMessage (out : List OutEvent) : Bool :=
  out.any (fun e => match e with
    | .broadcast (.newMessage _) _ => true
    | _ => false)

/-- How many `newMessage` broadcasts the output list contains. -/
def countNewMessageBroadcasts (out : List OutEvent) : Nat :=
  (out.filter (fun e => match e with
    | .broadcast (.newMessage _) _ => true
    | _ => false)).length

/-- Is the event an `error` payload (sent or broadcast)? -/
def isErrorEvent : OutEvent → Bool
  | .sendTo _ (.errorMsg _ _) => true
  | .broadcast (.errorMsg _ _) _ => true
  | _ => false

/-- The wire object `{type, content, encrypted}` of an inbound message as the
validator would receive it. -/
def toWire (m : InboundMsg) : WireInput :=
  .obj ⟨m.content.map JVal.jstr, some (JVal.jstr m.type)⟩

/-- A run of inbound `message`-path events for one connection, all arriving
at the same instant `now` (hence inside a single rate-limit window), each
with its drawn message id; outputs are concatenated in order. -/
def processSeq (now : Int) (s : ServerState) (ws : Nat) :
    List (InboundMsg × String) → ServerState × List OutEvent
  | [] => (s, [])
  | (m, newId) :: rest =>
    let step := handleMessage now newId s ws m
    let next := processSeq now step.1 ws rest
    (next.1, step.2 ++ next.2)

/-- **C9.** A transport close or error removes the connection from the
registry, and a message event arriving for a connection that is absent from
the registry is not processed: the state (store included) is unchanged and
no broadcast or response is produced. -/
theorem closed_connection_events_ignored (s : ServerState) (ws : Nat) :
    clientsGet (handleClose s ws).1.clients ws = none ∧
    clientsGet (handleError s ws).1.clients ws = none ∧
    (∀ (s' : ServerState) (now : Int) (newId : String) (m : InboundMsg),
      clientsGet s'.clients ws = none →
      handleMessage now newId s' ws m = (s', [])) := by
  refine ⟨clientsGet_delete ws s.clients, clientsGet_delete ws s.clients, ?_⟩
  intro s' now newId m h
  exact handleMessage_unregistered now newId s' ws m h

/-- Witness for C9: one registered connection closes; a later message event
for it leaves the state untouched and produces no output. -/
theorem closed_connection_events_ignored_witness :
    clientsGet (handleClose ⟨[(0, ⟨"u", "c", 0, 0⟩)], []⟩ 0).1.clients 0 = none ∧
    handleMessage 5 "m1" (handleClose ⟨[(0, ⟨"u", "c", 0, 0⟩)], []⟩ 0).1 0
        ⟨"message", some "hi", false⟩ =
      ((handleClose ⟨[(0, ⟨"u", "c", 0, 0⟩)], []⟩ 0).1, []) := by
  have h := closed_connection_events_ignored ⟨[(0, ⟨"u", "c", 0, 0⟩)], []⟩ 0
  exact ⟨h.1, h.2.2 _ 5 "m1" ⟨"message", some "hi", false⟩ h.1⟩

/-- **C8.** `broadcast` serializes the event once and delivers that one
string exactly to the registered connections with open transports, skipping
the excluded one; an accepted chat message is broadcast with no exclusion,
so it reaches every open registered connection including the sender; and a
delivery failure (transport not open) or disconnection of one connection
never changes delivery to the remaining connections. -/
theorem broadcast_fanout_properties :
    (∀ (clients : List (Nat × ClientInfo)) (ready : Nat → Bool) (message : OutMsg)
        (excludeClient : Option Nat) (ws : Nat) (wire : String),
      (ws, wire) ∈ broadcastDeliveries clients ready message excludeClient ↔
        (∃ ci, (ws, ci) ∈ clients) ∧ ready ws = true ∧ some ws ≠ excludeClient ∧
          wire = serializeOut message) ∧
    (∀ (clients : List (Nat × ClientInfo)) (ready ready' : Nat → Bool)
        (message : OutMsg) (excludeClient : Option Nat) (ws₀ ws : Nat) (wire : String),
      ws ≠ ws₀ → (∀ w, w ≠ ws₀ → ready w = ready' w) →
      ((ws, wire) ∈ broadcastDeliveries clients ready message excludeClient ↔
        (ws, wire) ∈ broadcastDeliveries clients ready' message excludeClient)) ∧
    (∀ (clients : List (Nat × ClientInfo)) (ready : Nat → Bool) (message : OutMsg)
        (excludeClient : Option Nat) (ws₀ ws : Nat) (wire : String),
      ws ≠ ws₀ →
      ((ws, wire) ∈
          broadcastDeliveries (clientsDelete clients ws₀) ready message excludeClient ↔
        (ws, wire) ∈ broadcastDeliveries clients ready message excludeClient)) ∧
    (∀ (now : Int) (newId : String) (s : ServerState) (ws : Nat) (m : InboundMsg)
        (cm : ChatMessage) (ex : Option Nat),
      OutEvent.broadcast (OutMsg.newMessage cm) ex ∈ (handleMessage now newId s ws m).2 →
      ex = none) ∧
    (∀ (now : Int) (newId : String) (s : ServerState) (ws : Nat) (m : InboundMsg)
        (cm : ChatMessage) (ex : Option Nat) (ready : Nat → Bool),
      OutEvent.broadcast (OutMsg.newMessage cm) ex ∈ (handleMessage now newId s ws m).2 →
      ready ws = true →
      (ws, serializeOut (OutMsg.newMessage cm)) ∈
        broadcastDeliveries (handleMessage now newId s ws m).1.clients ready
          (OutMsg.newMessage cm) ex) := by
  have hmem := mem_broadcastDeliveries
  have hnoex : ∀ (now : Int) (newId : String) (s : ServerState) (ws : Nat)
      (m : InboundMsg) (cm : ChatMessage) (ex : Option Nat),
      OutEvent.broadcast (OutMsg.newMessage cm) ex ∈ (handleMessage now newId s ws m).2 →
      ex = none := by
    intro now newId s ws m cm ex he
    rcases handleMessage_out_shape now newId s ws m with h | ⟨cm', h⟩ | h
    · rw [h] at he; simp at he
    · rw [h] at he
      simp only [List.mem_singleton] at he
      injection he with h1 h2
    · rw [h] at he; simp at he
  refine ⟨fun clients ready message ex ws wire => hmem clients ready message ex ws wire,
    ?_, ?_, hnoex, ?_⟩
  · intro clients ready ready' message ex ws₀ ws wire hne hagree
    rw [hmem, hmem, hagree ws hne]
  · intro clients ready message ex ws₀ ws wire hne
    rw [hmem, hmem]
    constructor
    · rintro ⟨⟨ci, hci⟩, rest⟩
      exact ⟨⟨ci, (mem_clientsDelete clients ws₀ ws ci hne).mp hci⟩, rest⟩
    · rintro ⟨⟨ci, hci⟩, rest⟩
      exact ⟨⟨ci, (mem_clientsDelete clients ws₀ ws ci hne).mpr hci⟩, rest⟩
  · intro now newId s ws m cm ex ready he hready
    have hex : ex = none := hnoex now newId s ws m cm ex he
    subst hex
    rcases hcg : clientsGet s.clients ws with _ | client
    · rw [handleMessage_unregistered now newId s ws m hcg] at he
      simp at he
    · have hshape := handleMessage_out_shape now newId s ws m
      rcases hshape with h | ⟨cm', h⟩ | h
      · rw [h] at he; simp at he
      · rw [h] at he
        -- the broadcast runs against the post-update registry, where the
        -- sender is still present
        have hsender : (ws, touch client now) ∈
            (handleMessage now newId s ws m).1.clients := by
          by_cases ht : m.type = "message"
          · rcases hcont : m.content with _ | c
            · rw [handleMessage_discard now newId s ws m client hcg ht (Or.inl hcont)]
              exact clientsGet_mem_set (touch client now) s.clients ws client hcg
            · by_cases hlen : 0 < (jsTrim c).length
              · rw [handleMessage_accept now newId s ws m client c hcg ht hcont hlen]
                exact clientsGet_mem_set (touch client now) s.clients ws client hcg
              · rw [handleMessage_discard now newId s ws m client hcg ht
                  (Or.inr ⟨c, hcont, by omega⟩)]
                exact clientsGet_mem_set (touch client now) s.clients ws client hcg
          · by_cases hp : m.type = "ping"
            · rw [handleMessage_ping now newId s ws m client hcg ht hp]
              exact clientsGet_mem_set (touch client now) s.clients ws client hcg
            · rw [handleMessage_other now newId s ws m client hcg ht hp]
              exact clientsGet_mem_set (touch client now) s.clients ws client hcg
        exact (hmem _ _ _ _ _ _).mpr ⟨⟨touch client now, hsender⟩, hready, by simp, rfl⟩
      · rw [h] at he; simp at he

/-- Witness for C8: with two registered connections both open and no
exclusion, connection 0 still receives the broadcast after connection 1 is
deleted from the registry. -/
theorem broadcast_fanout_properties_witness :
    (0, serializeOut OutMsg.pong) ∈
      broadcastDeliveries
        (clientsDelete [(0, ⟨"u", "c", 0, 0⟩), (1, ⟨"v", "d", 0, 0⟩)] 1)
        (fun _ => true) OutMsg.pong none ↔
    (0, serializeOut OutMsg.pong) ∈
      broadcastDeliveries [(0, ⟨"u", "c", 0, 0⟩), (1, ⟨"v", "d", 0, 0⟩)]
        (fun _ => true) OutMsg.pong none :=
  broadcast_fanout_properties.2.2.1
    [(0, ⟨"u", "c", 0, 0⟩), (1, ⟨"v", "d", 0, 0⟩)] (fun _ => true)
    OutMsg.pong none 1 0 (serializeOut OutMsg.pong) (by decide)

/-- **C1 as stated** (two consequences of the claim, each universally
quantified; the claim implies both).  (1) Every `newMessage` broadcast was
accepted by the Validator.  (2) Every broadcast was first admitted by the
Rate Limiter under the message-send preset (20 per 60000 ms); since all
events of a `processSeq` run carry one instant (one window), at most 20
`newMessage` broadcasts can then arise for one connection in such a run. -/
def relayChecksClaim : Prop :=
  (∀ (now : Int) (newId : String) (s : ServerState) (ws : Nat) (m : InboundMsg),
    broadcastsNewMessage (handleMessage now newId s ws m).2 = true →
    (validateMessage (toWire m)).valid = true) ∧
  (∀ (now : Int) (s : ServerState) (ws : Nat) (items : List (InboundMsg × String)),
    countNewMessageBroadcasts (processSeq now s ws items).2 ≤ 20)

/-- **C1 — counterexample.**  `handleMessage` consults neither the rate
limiter nor the validator: a registered client sending
`<script>alert(1)</script>` (truthy, trim-non-empty) gets a `newMessage`
broadcast although the Validator rejects that content as empty after
sanitization. -/
theorem relay_checks_claim_counterexample : ¬ relayChecksClaim := by
  intro h
  have h1 := h.1 0 "id0" ⟨[(0, ⟨"u", "c", 0, 0⟩)], []⟩ 0
    ⟨"message", some "<script>alert(1)</script>", false⟩
  exact absurd (h1 (by decide)) (by decide)

set_option maxRecDepth 10000 in
/-- **C1 — amended.**  For a registered connection, a `newMessage` broadcast
happens exactly when the inbound event has type `message` and content that
is non-empty after trimming; the broadcast message carries the trimmed
content truncated to 1000 characters and is excluded from nobody.  No
rate-limiter or validator check guards this path. -/
theorem relay_broadcast_guard_amended (now : Int) (newId : String)
    (s : ServerState) (ws : Nat) (m : InboundMsg) (client : ClientInfo)
    (hc : clientsGet s.clients ws = some client) :
    (broadcastsNewMessage (handleMessage now newId s ws m).2 = true ↔
      m.type = "message" ∧ ∃ c, m.content = some c ∧ 0 < (jsTrim c).length) ∧
    (∀ (cm : ChatMessage) (ex : Option Nat),
      OutEvent.broadcast (OutMsg.newMessage cm) ex ∈ (handleMessage now newId s ws m).2 →
      ex = none ∧ ∃ c, m.content = some c ∧ cm.content = ⟨(jsTrim c).data.take 1000⟩) := by
  by_cases ht : m.type = "message"
  · rcases hcont : m.content with _ | c
    · rw [handleMessage_discard now newId s ws m client hc ht (Or.inl hcont)]
      constructor
      · simp [broadcastsNewMessage, hcont]
      · intro cm ex he
        simp at he
    · by_cases hlen : 0 < (jsTrim c).length
      · rw [handleMessage_accept now newId s ws m client c hc ht hcont hlen]
        constructor
        · constructor
          · intro _
            exact ⟨ht, c, rfl, hlen⟩
          · intro _
            rfl
        · intro cm ex he
          simp only [List.mem_singleton, OutEvent.broadcast.injEq,
            OutMsg.newMessage.injEq] at he
          obtain ⟨hcm, hex⟩ := he
          subst hcm
          subst hex
          exact ⟨rfl, c, rfl, rfl⟩
      · rw [handleMessage_discard now newId s ws m client hc ht
          (Or.inr ⟨c, hcont, by omega⟩)]
        constructor
        · constructor
          · intro hb
            simp [broadcastsNewMessage] at hb
          · rintro ⟨-, c', hc', hlen'⟩
            injection hc' with hcc
            subst hcc
            exact absurd hlen' hlen
        · intro cm ex he
          simp at he
  · constructor
    · constructor
      · intro hb
        by_cases hp : m.type = "ping"
        · rw [handleMessage_ping now newId s ws m client hc ht hp] at hb
          simp [broadcastsNewMessage] at hb
        · rw [handleMessage_other now newId s ws m client hc ht hp] at hb
          simp [broadcastsNewMessage] at hb
      · rintro ⟨hmt, -⟩
        exact absurd hmt ht
    · intro cm ex he
      by_cases hp : m.type = "ping"
      · rw [handleMessage_ping now newId s ws m client hc ht hp] at he
        simp at he
      · rw [handleMessage_other now newId s ws m client hc ht hp] at he
        simp at he

/-- Witness for the amended C1: a registered client's plain `"hi"` message is
broadcast. -/
theorem relay_broadcast_guard_amended_witness :
    broadcastsNewMessage
      (handleMessage 0 "id0" ⟨[(0, ⟨"u", "c", 0, 0⟩)], []⟩ 0
        ⟨"message", some "hi", false⟩).2 = true :=
  (relay_broadcast_guard_amended 0 "id0" ⟨[(0, ⟨"u", "c", 0, 0⟩)], []⟩ 0
      ⟨"message", some "hi", false⟩ ⟨"u", "c", 0, 0⟩ (by decide)).1.mpr
    ⟨rfl, "hi", rfl, by decide⟩

/-- **C2 as stated.**  (1) An inbound message event whose sender the
message-send rate-limit preset would reject (at the event's instant, for any
rate-limit store and backend state) is answered with an `error` event
carrying a retry-after value, the store is unchanged and nothing is
broadcast.  (2) An inbound message event the Validator rejects is answered
with an `error` event and not broadcast. -/
def relayRejectionClaim : Prop :=
  (∀ (redis : RedisAvail) (rl : RLStore) (ident : String) (now : Int)
      (newId : String) (s : ServerState) (ws : Nat) (m : InboundMsg)
      (client : ClientInfo),
    clientsGet s.clients ws = some client →
    m.type = "message" →
    (checkMessageLimit redis rl ident now).1.allowed = false →
    (∃ text retry, OutEvent.sendTo ws (OutMsg.errorMsg text (some retry)) ∈
        (handleMessage now newId s ws m).2) ∧
    (handleMessage now newId s ws m).1.messages = s.messages ∧
    countNewMessageBroadcasts (handleMessage now newId s ws m).2 = 0) ∧
  (∀ (now : Int) (newId : String) (s : ServerState) (ws : Nat) (m : InboundMsg)
      (client : ClientInfo),
    clientsGet s.clients ws = some client →
    (validateMessage (toWire m)).valid = false →
    (∃ text retryAfter, OutEvent.sendTo ws (OutMsg.errorMsg text retryAfter) ∈
        (handleMessage now newId s ws m).2) ∧
    countNewMessageBroadcasts (handleMessage now newId s ws m).2 = 0)

/-- **C2 — counterexample.**  The relay never sends `error` events: for the
registered client sending `<script>alert(1)</script>` the Validator rejects,
yet `handleMessage` broadcasts the message and answers nothing. -/
theorem relay_rejection_claim_counterexample : ¬ relayRejectionClaim := by
  intro h
  have h2 := h.2 0 "id0" ⟨[(0, ⟨"u", "c", 0, 0⟩)], []⟩ 0
    ⟨"message", some "<script>alert(1)</script>", false⟩ ⟨"u", "c", 0, 0⟩
    (by decide) (by decide)
  exact absurd h2.2 (by decide)

/-- **C2 — amended.**  The relay emits no `error` events at all.  A message
event whose content is missing or empty after trimming is silently
discarded: no output and no store change.  Rate-limiter and validator
verdicts play no role in the relay's handling. -/
theorem relay_silent_discard_amended :
    (∀ (now : Int) (newId : String) (s : ServerState) (ws : Nat) (m : InboundMsg)
        (e : OutEvent), e ∈ (handleMessage now newId s ws m).2 →
      isErrorEvent e = false) ∧
    (∀ (now : Int) (newId : String) (s : ServerState) (ws : Nat) (m : InboundMsg)
        (client : ClientInfo),
      clientsGet s.clients ws = some client →
      m.type = "message" →
      (m.content = none ∨ ∃ c, m.content = some c ∧ (jsTrim c).length = 0) →
      (handleMessage now newId s ws m).2 = [] ∧
      (handleMessage now newId s ws m).1.messages = s.messages) := by
  constructor
  · intro now newId s ws m e he
    rcases handleMessage_out_shape now newId s ws m with h | ⟨cm, h⟩ | h
    · rw [h] at he; simp at he
    · rw [h] at he
      simp only [List.mem_singleton] at he
      subst he
      rfl
    · rw [h] at he
      simp only [List.mem_singleton] at he
      subst he
      rfl
  · intro now newId s ws m client hc ht hcont
    rw [handleMessage_discard now newId s ws m client hc ht hcont]
    exact ⟨rfl, rfl⟩

/-- Witness for the amended C2: a whitespace-only message from a registered
client is discarded with no output and no store change, and in particular
none of its (absent) outputs is an error event. -/
theorem relay_silent_discard_amended_witness :
    (handleMessage 0 "id0" ⟨[(0, ⟨"u", "c", 0, 0⟩)], []⟩ 0
      ⟨"message", some " ", false⟩).2 = [] ∧
    (handleMessage 0 "id0" ⟨[(0, ⟨"u", "c", 0, 0⟩)], []⟩ 0
      ⟨"message", some " ", false⟩).1.messages = [] :=
  relay_silent_discard_amended.2 0 "id0" ⟨[(0, ⟨"u", "c", 0, 0⟩)], []⟩ 0
    ⟨"message", some " ", false⟩ ⟨"u", "c", 0, 0⟩ (by decide) rfl
    (Or.inr ⟨" ", rfl, by decide⟩)

end AnonChat
